import Mathlib

/-!
Verification of `bot/utils/time.py` — the delta-humanization utilities.

The module's only non-trivial logic is `humanize_delta` together with its
helper `_stringify_time_unit`; the remaining functions are thin wrappers
around external date parsing and calendar arithmetic.  Following the design
document, the external collaborators (`dateutil.parser.isoparse`,
`relativedelta` on two datetimes, `strftime`) are taken as abstract
function parameters, while everything the repository itself implements is
embedded directly.

Python `int` is embedded as `Int`, Python strings as `String`, optional
values as `Option`, and a function that may raise as `Except String _`.
-/

set_option autoImplicit false

namespace BotTime

/-- A `dateutil.relativedelta` as consumed by `humanize_delta`: the six
calendar fields, each an arbitrary integer. -/
structure Relativedelta where
  years : Int
  months : Int
  days : Int
  hours : Int
  minutes : Int
  seconds : Int
deriving DecidableEq, Repr

/-- A naive Python `datetime.datetime` (after `tzinfo` removal): calendar
fields plus microseconds.  Comparison of naive datetimes in Python is
lexicographic on these fields. -/
structure PyDateTime where
  year : Int
  month : Int
  day : Int
  hour : Int
  minute : Int
  second : Int
  microsecond : Int
deriving DecidableEq, Repr

/-- Python `<` on naive datetimes: lexicographic field comparison. -/
def dtLt (a b : PyDateTime) : Bool :=
  if a.year < b.year then true else if b.year < a.year then false
  else if a.month < b.month then true else if b.month < a.month then false
  else if a.day < b.day then true else if b.day < a.day then false
  else if a.hour < b.hour then true else if b.hour < a.hour then false
  else if a.minute < b.minute then true else if b.minute < a.minute then false
  else if a.second < b.second then true else if b.second < a.second then false
  else decide (a.microsecond < b.microsecond)

/-- The replace call with tzinfo None and microsecond 0: zero out the
microsecond field. -/
def truncMicro (d : PyDateTime) : PyDateTime :=
  ⟨d.year, d.month, d.day, d.hour, d.minute, d.second, 0⟩

/-- Absolute value of a relativedelta: the library takes the absolute value
of every field. -/
def absDelta (d : Relativedelta) : Relativedelta :=
  ⟨|d.years|, |d.months|, |d.days|, |d.hours|, |d.minutes|, |d.seconds|⟩

/-- The helper named with a leading underscore in the source: slicing the
unit label up to its last character is `String.dropRight 1`, and f-string
interpolation of an integer is `toString`. -/
def _stringify_time_unit (value : Int) (unit : String) : String :=
  if unit = "seconds" ∧ value = 0 then
    "0 seconds"
  else if value = 1 then
    toString value ++ " " ++ unit.dropRight 1
  else if value = 0 then
    "less than a " ++ unit.dropRight 1
  else
    toString value ++ " " ++ unit

/-- The fixed `units` tuple built inside `humanize_delta`. -/
def unitsList (delta : Relativedelta) : List (String × Int) :=
  [("years", delta.years),
   ("months", delta.months),
   ("days", delta.days),
   ("hours", delta.hours),
   ("minutes", delta.minutes),
   ("seconds", delta.seconds)]

/-- The `for unit, value in units` loop of `humanize_delta`: append the
stringified phrase for each truthy (nonzero) value, incrementing
`unit_count`, and `break` once the unit equals `precision` or `unit_count`
has reached `max_units`.  `count` carries the running `unit_count`. -/
def collectPhrases : List (String × Int) → String → Int → Nat → List String
  | [], _, _, _ => []
  | (unit, value) :: rest, precision, max_units, count =>
    let appended := if value ≠ 0 then [_stringify_time_unit value unit] else []
    let count' := if value ≠ 0 then count + 1 else count
    if unit = precision ∨ (count' : Int) ≥ max_units then
      appended
    else
      appended ++ collectPhrases rest precision max_units count'

/-- The in-place merge of the final two phrases: the source assigns the
and-joined pair of the second-to-last and last entries into the last slot
and deletes the second-to-last, so when the list has more than one entry
the last two are replaced by their joined combination. -/
def mergeLastTwo (l : List String) : List String :=
  match l.reverse with
  | b :: a :: rest => ((a ++ " and " ++ b) :: rest).reverse
  | _ => l

/-- Python comma-space join of a list of strings. -/
def joinComma : List String → String
  | [] => ""
  | [x] => x
  | x :: y :: rest => x ++ ", " ++ joinComma (y :: rest)

/-- The humanizer: raises a ValueError when max_units is nonpositive,
otherwise runs the collection loop, merges the last two phrases, and falls
back to the stringified zero precision unit when the list is empty. -/
def humanize_delta (delta : Relativedelta) (precision : String)
    (max_units : Int) : Except String String :=
  if max_units ≤ 0 then
    .error "max_units must be positive"
  else
    let time_strings := mergeLastTwo (collectPhrases (unitsList delta) precision max_units 0)
    if time_strings = [] then
      .ok (_stringify_time_unit 0 precision)
    else
      .ok (joinComma time_strings)

/-- Formatting an infraction timestamp: parse then render with the
infraction format; both collaborators are abstract parameters. -/
def format_infraction (isoparse : String → PyDateTime)
    (strftimeInfraction : PyDateTime → String) (timestamp : String) : String :=
  strftimeInfraction (isoparse timestamp)

/-- Formatting with a duration: a missing or empty date short-circuits to
a missing result; otherwise the formatted timestamp, with the humanized
duration appended in parentheses when that duration string is truthy. -/
def format_infraction_with_duration (isoparse : String → PyDateTime)
    (rdelta : PyDateTime → PyDateTime → Relativedelta)
    (strftimeInfraction : PyDateTime → String)
    (date_to : Option String) (date_from : Option PyDateTime)
    (utcnow : PyDateTime) (max_units : Int) (absolute : Bool) :
    Except String (Option String) :=
  match date_to with
  | none => .ok none
  | some dt =>
    if dt = "" then .ok none
    else
      let date_to_formatted := format_infraction isoparse strftimeInfraction dt
      let date_from' := date_from.getD utcnow
      let date_to2 := truncMicro (isoparse dt)
      let delta := rdelta date_to2 date_from'
      let delta' := if absolute then absDelta delta else delta
      match humanize_delta delta' "seconds" max_units with
      | .error e => .error e
      | .ok duration =>
        let duration_formatted := if duration ≠ "" then " (" ++ duration ++ ")" else ""
        .ok (some (date_to_formatted ++ duration_formatted))

/-- Remaining time until expiration: a missing result for falsy expiry or
when the parsed, microsecond-truncated expiry is strictly before now,
otherwise the humanized delta with the default seconds precision. -/
def until_expiration (isoparse : String → PyDateTime)
    (rdelta : PyDateTime → PyDateTime → Relativedelta)
    (expiry : Option String) (now : Option PyDateTime)
    (utcnow : PyDateTime) (max_units : Int) : Except String (Option String) :=
  match expiry with
  | none => .ok none
  | some e =>
    if e = "" then .ok none
    else
      let now' := now.getD utcnow
      let since := truncMicro (isoparse e)
      if dtLt since now' then .ok none
      else Except.map some (humanize_delta (rdelta since now') "seconds" max_units)

/-- Spec-side restatement of the collection loop, used for the refinement
claim: a left fold over the ordered unit list carrying the appended phrases,
the running count and a halted flag.  Each step appends the stringified
phrase of a nonzero unit; the fold halts as soon as the unit equals the
precision or the count of appended phrases has reached `max_units`. -/
def specStep (precision : String) (max_units : Int)
    (st : List String × Nat × Bool) (uv : String × Int) :
    List String × Nat × Bool :=
  if st.2.2 then st
  else
    let acc := if uv.2 ≠ 0 then st.1 ++ [_stringify_time_unit uv.2 uv.1] else st.1
    let cnt := if uv.2 ≠ 0 then st.2.1 + 1 else st.2.1
    (acc, cnt, decide (uv.1 = precision ∨ (cnt : Int) ≥ max_units))

/-- Spec-side phrase list: fold `specStep` over the six units in order. -/
def specPhrases (delta : Relativedelta) (precision : String)
    (max_units : Int) : List String :=
  ((unitsList delta).foldl (specStep precision max_units) ([], 0, false)).1

/-- Once the spec-side fold has halted, further units change nothing. -/
theorem foldl_specStep_halted (p : String) (m : Int) :
    ∀ (l : List (String × Int)) (st : List String × Nat × Bool),
      st.2.2 = true → List.foldl (specStep p m) st l = st := by
  intro l
  induction l with
  | nil => intro st _; rfl
  | cons x xs ih =>
    intro st h
    have hs : specStep p m st x = st := by
      simp [specStep, h]
    rw [List.foldl_cons, hs]
    exact ih st h

/-- Loop equation: a zero-valued unit that triggers the stop condition. -/
theorem collectPhrases_zero_stop {u : String} {v : Int}
    (rest : List (String × Int)) (p : String) (m : Int) (c : Nat)
    (hv : v = 0) (hstop : u = p ∨ m ≤ (c : Int)) :
    collectPhrases ((u, v) :: rest) p m c = [] := by
  simp [collectPhrases, hv, hstop]

/-- Loop equation: a zero-valued unit that does not trigger the stop. -/
theorem collectPhrases_zero_go {u : String} {v : Int}
    (rest : List (String × Int)) (p : String) (m : Int) (c : Nat)
    (hv : v = 0) (hstop : ¬(u = p ∨ m ≤ (c : Int))) :
    collectPhrases ((u, v) :: rest) p m c = collectPhrases rest p m c := by
  simp [collectPhrases, hv, hstop]

/-- Loop equation: a nonzero unit that triggers the stop condition. -/
theorem collectPhrases_pos_stop {u : String} {v : Int}
    (rest : List (String × Int)) (p : String) (m : Int) (c : Nat)
    (hv : v ≠ 0) (hstop : u = p ∨ m ≤ (c : Int) + 1) :
    collectPhrases ((u, v) :: rest) p m c = [_stringify_time_unit v u] := by
  simp [collectPhrases, hv, hstop]

/-- Loop equation: a nonzero unit that does not trigger the stop. -/
theorem collectPhrases_pos_go {u : String} {v : Int}
    (rest : List (String × Int)) (p : String) (m : Int) (c : Nat)
    (hv : v ≠ 0) (hstop : ¬(u = p ∨ m ≤ (c : Int) + 1)) :
    collectPhrases ((u, v) :: rest) p m c =
      _stringify_time_unit v u :: collectPhrases rest p m (c + 1) := by
  simp [collectPhrases, hv, hstop]

/-- The running spec-side fold computes exactly the source loop's phrases,
appended to the accumulator. -/
theorem foldl_specStep_collect (p : String) (m : Int) :
    ∀ (l : List (String × Int)) (acc : List String) (c : Nat),
      (List.foldl (specStep p m) (acc, c, false) l).1 =
        acc ++ collectPhrases l p m c := by
  intro l
  induction l with
  | nil => intro acc c; simp [collectPhrases]
  | cons uv rest ih =>
    intro acc c
    obtain ⟨u, v⟩ := uv
    rw [List.foldl_cons]
    by_cases hv : v = 0
    · by_cases hstop : u = p ∨ m ≤ (c : Int)
      · have hs : specStep p m (acc, c, false) (u, v) = (acc, c, true) := by
          simp [specStep, hv]
          exact hstop
        rw [hs, foldl_specStep_halted p m rest _ rfl,
          collectPhrases_zero_stop rest p m c hv hstop]
        simp
      · have hs : specStep p m (acc, c, false) (u, v) = (acc, c, false) := by
          simp [specStep, hv]
          push_neg at hstop
          exact hstop
        rw [hs, ih acc c, collectPhrases_zero_go rest p m c hv hstop]
    · by_cases hstop : u = p ∨ m ≤ (c : Int) + 1
      · have hs : specStep p m (acc, c, false) (u, v) =
            (acc ++ [_stringify_time_unit v u], c + 1, true) := by
          simp [specStep, hv]
          exact hstop
        rw [hs, foldl_specStep_halted p m rest _ rfl,
          collectPhrases_pos_stop rest p m c hv hstop]
      · have hs : specStep p m (acc, c, false) (u, v) =
            (acc ++ [_stringify_time_unit v u], c + 1, false) := by
          simp [specStep, hv]
          push_neg at hstop
          exact hstop
        rw [hs, ih _ (c + 1), collectPhrases_pos_go rest p m c hv hstop]
        simp

/-- The loop of `humanize_delta` never produces more phrases than
`max_units` minus the count already accumulated. -/
theorem collectPhrases_length_le (p : String) (m : Int) :
    ∀ (l : List (String × Int)) (c : Nat), (c : Int) < m →
      ((collectPhrases l p m c).length : Int) + c ≤ m := by
  intro l
  induction l with
  | nil => intro c hc; simp [collectPhrases]; omega
  | cons uv rest ih =>
    intro c hc
    obtain ⟨u, v⟩ := uv
    by_cases hv : v = 0
    · by_cases hstop : u = p ∨ m ≤ (c : Int)
      · rw [collectPhrases_zero_stop rest p m c hv hstop]; simp; omega
      · rw [collectPhrases_zero_go rest p m c hv hstop]; exact ih c hc
    · by_cases hstop : u = p ∨ m ≤ (c : Int) + 1
      · rw [collectPhrases_pos_stop rest p m c hv hstop]; simp; omega
      · have hlt : ((c + 1 : Nat) : Int) < m := by push_neg at hstop; push_cast; omega
        rw [collectPhrases_pos_go rest p m c hv hstop]
        have := ih (c + 1) hlt
        push_cast at this ⊢
        simp only [List.length_cons] at this ⊢
        push_cast
        omega

/-- Merging a list ending in two known elements joins exactly those two. -/
theorem mergeLastTwo_append_pair (l : List String) (a b : String) :
    mergeLastTwo (l ++ [a, b]) = l ++ [a ++ " and " ++ b] := by
  simp [mergeLastTwo]

/-- Merging leaves lists of at most one element unchanged. -/
theorem mergeLastTwo_short (l : List String) (h : l.length ≤ 1) :
    mergeLastTwo l = l := by
  match l with
  | [] => rfl
  | [x] => rfl
  | x :: y :: rest => simp at h

/-- A string of positive length is not the empty string. -/
theorem ne_empty_of_length_pos {s : String} (h : 0 < s.length) : s ≠ "" := by
  intro he
  subst he
  simp [String.length_empty] at h

/-- Concatenating around a single space is never empty. -/
theorem append_space_append_ne_empty (a b : String) : a ++ " " ++ b ≠ "" := by
  apply ne_empty_of_length_pos
  rw [String.length_append, String.length_append]
  have hsp : (" " : String).length = 1 := rfl
  omega

/-- Every string produced by the stringify helper is nonempty. -/
theorem _stringify_time_unit_ne_empty (v : Int) (u : String) :
    _stringify_time_unit v u ≠ "" := by
  unfold _stringify_time_unit
  split
  · decide
  · split
    · exact append_space_append_ne_empty _ _
    · split
      · apply ne_empty_of_length_pos
        rw [String.length_append]
        have : ("less than a " : String).length = 12 := rfl
        omega
      · exact append_space_append_ne_empty _ _

/-- Every phrase collected by the humanizer loop is nonempty. -/
theorem collectPhrases_mem_ne_empty (p : String) (m : Int) :
    ∀ (l : List (String × Int)) (c : Nat) (x : String),
      x ∈ collectPhrases l p m c → x ≠ "" := by
  intro l
  induction l with
  | nil => intro c x hx; simp [collectPhrases] at hx
  | cons uv rest ih =>
    intro c x hx
    obtain ⟨u, v⟩ := uv
    by_cases hv : v = 0
    · by_cases hstop : u = p ∨ m ≤ (c : Int)
      · rw [collectPhrases_zero_stop rest p m c hv hstop] at hx
        simp at hx
      · rw [collectPhrases_zero_go rest p m c hv hstop] at hx
        exact ih c x hx
    · by_cases hstop : u = p ∨ m ≤ (c : Int) + 1
      · rw [collectPhrases_pos_stop rest p m c hv hstop] at hx
        rw [List.mem_singleton] at hx
        subst hx
        exact _stringify_time_unit_ne_empty v u
      · rw [collectPhrases_pos_go rest p m c hv hstop] at hx
        rcases List.mem_cons.mp hx with h | h
        · subst h
          exact _stringify_time_unit_ne_empty v u
        · exact ih (c + 1) x h

/-- Merging preserves the property that every member is nonempty. -/
theorem mergeLastTwo_mem_ne_empty (l : List String)
    (hl : ∀ x ∈ l, x ≠ "") : ∀ x ∈ mergeLastTwo l, x ≠ "" := by
  intro x hx
  unfold mergeLastTwo at hx
  match hrev : l.reverse with
  | [] => rw [hrev] at hx; exact hl x hx
  | [y] => rw [hrev] at hx; exact hl x hx
  | b :: a :: rest =>
    rw [hrev] at hx
    rw [List.mem_reverse, List.mem_cons] at hx
    rcases hx with h | h
    · subst h
      have : a ++ " and " ++ b = a ++ (" and " ++ b) := by
        rw [String.append_assoc]
      rw [this]
      apply ne_empty_of_length_pos
      rw [String.length_append, String.length_append]
      have : (" and " : String).length = 5 := rfl
      omega
    · apply hl
      have hx2 : x ∈ l.reverse := by rw [hrev]; simp [h]
      exact List.mem_reverse.mp hx2

/-- Merging never turns a nonempty list into the empty list. -/
theorem mergeLastTwo_ne_nil (l : List String) (h : l ≠ []) :
    mergeLastTwo l ≠ [] := by
  unfold mergeLastTwo
  match hrev : l.reverse with
  | [] => simpa using h
  | [y] => simpa using h
  | b :: a :: rest => simp

/-- Comma-joining a nonempty list of nonempty strings is nonempty. -/
theorem joinComma_ne_empty (l : List String) (h0 : l ≠ [])
    (h : ∀ x ∈ l, x ≠ "") : joinComma l ≠ "" := by
  match l with
  | [] => exact absurd rfl h0
  | [x] => exact h x (List.mem_singleton_self x)
  | x :: y :: rest =>
    show x ++ ", " ++ joinComma (y :: rest) ≠ ""
    apply ne_empty_of_length_pos
    rw [String.length_append, String.length_append]
    have : (", " : String).length = 2 := rfl
    omega

/-- Sample external collaborators, used to instantiate the wrapper
theorems at concrete inputs. -/
def sampleDT : PyDateTime := ⟨2020, 1, 1, 0, 0, 0, 0⟩

/-- A parser returning a fixed timestamp. -/
def sampleIso : String → PyDateTime := fun _ => sampleDT

/-- A calendar diff returning a fixed five-second delta. -/
def sampleRd : PyDateTime → PyDateTime → Relativedelta :=
  fun _ _ => ⟨0, 0, 0, 0, 0, 5⟩

/-- A formatter returning a fixed rendering. -/
def sampleFmt : PyDateTime → String := fun _ => "2020-01-01 00:00"

/-- For positive `max_units`, `humanize_delta` returns `ok` of the joined
merged phrase list, with the zero-precision fallback on emptiness. -/
theorem humanize_delta_eq_of_pos (d : Relativedelta) (p : String) (m : Int)
    (h : 1 ≤ m) :
    humanize_delta d p m =
      .ok (if mergeLastTwo (collectPhrases (unitsList d) p m 0) = []
           then _stringify_time_unit 0 p
           else joinComma (mergeLastTwo (collectPhrases (unitsList d) p m 0))) := by
  have hm : ¬ m ≤ 0 := by omega
  by_cases hts : mergeLastTwo (collectPhrases (unitsList d) p m 0) = []
  · simp [humanize_delta, hm, hts]
  · simp [humanize_delta, hm, hts]

/-- For positive `max_units`, `humanize_delta` never raises. -/
theorem humanize_delta_ok_exists (d : Relativedelta) (p : String) (m : Int)
    (h : 1 ≤ m) : ∃ s, humanize_delta d p m = .ok s :=
  ⟨_, humanize_delta_eq_of_pos d p m h⟩

/-- For positive `max_units`, `humanize_delta` returns a nonempty string. -/
theorem humanize_delta_ok_ne_empty (d : Relativedelta) (p : String) (m : Int)
    (h : 1 ≤ m) : ∃ s, humanize_delta d p m = .ok s ∧ s ≠ "" := by
  by_cases hts : mergeLastTwo (collectPhrases (unitsList d) p m 0) = []
  · refine ⟨_stringify_time_unit 0 p, ?_, _stringify_time_unit_ne_empty 0 p⟩
    rw [humanize_delta_eq_of_pos d p m h, if_pos hts]
  · refine ⟨joinComma (mergeLastTwo (collectPhrases (unitsList d) p m 0)), ?_, ?_⟩
    · rw [humanize_delta_eq_of_pos d p m h, if_neg hts]
    · exact joinComma_ne_empty _ hts
        (mergeLastTwo_mem_ne_empty _
          (fun x hx => collectPhrases_mem_ne_empty p m (unitsList d) 0 x hx))

/-- The loop result does not depend on units listed after the precision
unit when the precision unit itself has value zero. -/
theorem collectPhrases_indep_after_precision (p : String) (m : Int) :
    ∀ (l rest rest' : List (String × Int)) (c : Nat),
      collectPhrases (l ++ (p, 0) :: rest) p m c =
        collectPhrases (l ++ (p, 0) :: rest') p m c := by
  intro l
  induction l with
  | nil =>
    intro rest rest' c
    simp only [List.nil_append]
    rw [collectPhrases_zero_stop rest p m c rfl (Or.inl rfl),
      collectPhrases_zero_stop rest' p m c rfl (Or.inl rfl)]
  | cons uv tail ih =>
    intro rest rest' c
    obtain ⟨u, v⟩ := uv
    simp only [List.cons_append]
    by_cases hv : v = 0
    · by_cases hstop : u = p ∨ m ≤ (c : Int)
      · rw [collectPhrases_zero_stop _ p m c hv hstop,
          collectPhrases_zero_stop _ p m c hv hstop]
      · rw [collectPhrases_zero_go _ p m c hv hstop,
          collectPhrases_zero_go _ p m c hv hstop]
        exact ih rest rest' c
    · by_cases hstop : u = p ∨ m ≤ (c : Int) + 1
      · rw [collectPhrases_pos_stop _ p m c hv hstop,
          collectPhrases_pos_stop _ p m c hv hstop]
      · rw [collectPhrases_pos_go _ p m c hv hstop,
          collectPhrases_pos_go _ p m c hv hstop, ih rest rest' (c + 1)]

/-- C1: for every delta, precision and `max_units ≥ 1` the phrase-collection
loop of `humanize_delta` refines the spec-side fold: it visits the units in
the fixed order years, months, days, hours, minutes, seconds, appends the
stringified phrase of every nonzero unit, and halts exactly when the unit
equals the precision (even when that unit's value is zero and nothing was
appended) or when the count of appended phrases reaches `max_units`; in
particular, with precision `"hours"` and zero hours the minutes and seconds
fields never influence the result. -/
theorem collectPhrases_refines_spec (delta : Relativedelta)
    (precision : String) (max_units : Int) (h : 1 ≤ max_units) :
    collectPhrases (unitsList delta) precision max_units 0 =
      specPhrases delta precision max_units ∧
    (∀ y mo d mi s : Int,
      collectPhrases (unitsList ⟨y, mo, d, 0, mi, s⟩) "hours" max_units 0 =
        collectPhrases (unitsList ⟨y, mo, d, 0, 0, 0⟩) "hours" max_units 0) := by
  constructor
  · unfold specPhrases
    rw [foldl_specStep_collect precision max_units (unitsList delta) [] 0]
    simp
  · intro y mo d mi s
    have := collectPhrases_indep_after_precision "hours" max_units
      [("years", y), ("months", mo), ("days", d)]
      [("minutes", mi), ("seconds", s)] [("minutes", 0), ("seconds", 0)] 0
    simpa [unitsList] using this

/-- C1 witness: the refinement instantiated at a concrete delta and bound. -/
theorem collectPhrases_refines_spec_witness :
    collectPhrases (unitsList ⟨1, 0, 2, 0, 3, 4⟩) "minutes" 2 0 =
      specPhrases ⟨1, 0, 2, 0, 3, 4⟩ "minutes" 2 ∧
    collectPhrases (unitsList ⟨1, 0, 0, 0, 7, 9⟩) "hours" 2 0 =
      collectPhrases (unitsList ⟨1, 0, 0, 0, 0, 0⟩) "hours" 2 0 := by
  exact ⟨(collectPhrases_refines_spec ⟨1, 0, 2, 0, 3, 4⟩ "minutes" 2
      (by decide)).1,
    (collectPhrases_refines_spec ⟨1, 0, 2, 0, 3, 4⟩ "minutes" 2
      (by decide)).2 1 0 0 7 9⟩

/-- C2: `humanize_delta` raises exactly when `max_units ≤ 0`, and returns a
string without raising whenever `max_units ≥ 1`. -/
theorem humanize_delta_raises_iff_nonpositive (delta : Relativedelta)
    (precision : String) (max_units : Int) :
    ((∃ e, humanize_delta delta precision max_units = .error e) ↔
      max_units ≤ 0) ∧
    (1 ≤ max_units → ∃ s, humanize_delta delta precision max_units = .ok s) := by
  constructor
  · constructor
    · rintro ⟨e, he⟩
      by_contra hm
      push_neg at hm
      obtain ⟨s, hs⟩ := humanize_delta_ok_exists delta precision max_units (by omega)
      rw [hs] at he
      cases he
    · intro hm
      exact ⟨"max_units must be positive", by simp [humanize_delta, hm]⟩
  · exact humanize_delta_ok_exists delta precision max_units

/-- C2 witness: raising at `max_units = 0`, succeeding at `max_units = 2`. -/
theorem humanize_delta_raises_iff_nonpositive_witness :
    (∃ e, humanize_delta ⟨0, 0, 0, 0, 0, 0⟩ "seconds" 0 = .error e) ∧
    (∃ s, humanize_delta ⟨0, 0, 0, 0, 0, 0⟩ "seconds" 2 = .ok s) :=
  ⟨(humanize_delta_raises_iff_nonpositive ⟨0, 0, 0, 0, 0, 0⟩ "seconds" 0).1.mpr
      (by decide),
    (humanize_delta_raises_iff_nonpositive ⟨0, 0, 0, 0, 0, 0⟩ "seconds" 2).2
      (by decide)⟩

/-- C3: the full case analysis of `_stringify_time_unit`: `"0 seconds"` for
the zero-seconds floor case, `"1 "` plus the singular label for value one,
`"less than a "` plus the singular label for value zero with any other unit,
and the value plus the plural label otherwise; together with the four
concrete evaluations named by the spec. -/
theorem stringify_time_unit_cases (value : Int) (unit : String) :
    (unit = "seconds" → value = 0 → _stringify_time_unit value unit = "0 seconds") ∧
    (value = 1 → _stringify_time_unit value unit = "1 " ++ unit.dropRight 1) ∧
    (unit ≠ "seconds" → value = 0 →
      _stringify_time_unit value unit = "less than a " ++ unit.dropRight 1) ∧
    (value ≠ 0 → value ≠ 1 →
      _stringify_time_unit value unit = toString value ++ " " ++ unit) ∧
    _stringify_time_unit 1 "hours" = "1 hour" ∧
    _stringify_time_unit 0 "minutes" = "less than a minute" ∧
    _stringify_time_unit 24 "hours" = "24 hours" ∧
    _stringify_time_unit 0 "seconds" = "0 seconds" := by
  refine ⟨?_, ?_, ?_, ?_, by decide, by decide, by decide, by decide⟩
  · intro hu hv
    subst hu
    subst hv
    rfl
  · intro hv
    subst hv
    unfold _stringify_time_unit
    rw [if_neg (by simp), if_pos rfl]
    rw [(by decide : toString (1 : Int) ++ " " = "1 ")]
  · intro hu hv
    subst hv
    unfold _stringify_time_unit
    rw [if_neg (fun hc => hu hc.1), if_neg (by decide), if_pos rfl]
  · intro h0 h1
    unfold _stringify_time_unit
    rw [if_neg (fun hc => h0 hc.2), if_neg h1, if_neg h0]

/-- C3 witness: the case analysis applied at value one and unit hours. -/
theorem stringify_time_unit_cases_witness :
    _stringify_time_unit 1 "hours" = "1 " ++ ("hours").dropRight 1 ∧
    _stringify_time_unit 0 "minutes" =
      "less than a " ++ ("minutes").dropRight 1 ∧
    _stringify_time_unit 24 "hours" = toString (24 : Int) ++ " " ++ "hours" ∧
    _stringify_time_unit 0 "seconds" = "0 seconds" :=
  ⟨(stringify_time_unit_cases 1 "hours").2.1 rfl,
    (stringify_time_unit_cases 0 "minutes").2.2.1 (by decide) rfl,
    (stringify_time_unit_cases 24 "hours").2.2.2.1 (by decide) (by decide),
    (stringify_time_unit_cases 0 "seconds").1 rfl rfl⟩

/-- C4: whenever the collection loop yields no phrase, `humanize_delta`
returns exactly `_stringify_time_unit 0 precision`; in particular the
all-zero delta renders as `"0 seconds"` with seconds precision and as
`"less than a minute"` with minutes precision. -/
theorem humanize_delta_empty_fallback (delta : Relativedelta) (p : String)
    (m : Int) (h1 : 1 ≤ m)
    (h2 : collectPhrases (unitsList delta) p m 0 = []) :
    humanize_delta delta p m = .ok (_stringify_time_unit 0 p) ∧
    humanize_delta ⟨0, 0, 0, 0, 0, 0⟩ "seconds" 6 = .ok "0 seconds" ∧
    humanize_delta ⟨0, 0, 0, 0, 0, 0⟩ "minutes" 6 = .ok "less than a minute" := by
  refine ⟨?_, rfl, rfl⟩
  rw [humanize_delta_eq_of_pos delta p m h1, h2]
  rfl

/-- C4 witness: the fallback instantiated at the all-zero delta with
minutes precision and bound four. -/
theorem humanize_delta_empty_fallback_witness :
    humanize_delta ⟨0, 0, 0, 0, 0, 0⟩ "minutes" 4 =
      .ok (_stringify_time_unit 0 "minutes") ∧
    humanize_delta ⟨0, 0, 0, 0, 0, 0⟩ "seconds" 6 = .ok "0 seconds" ∧
    humanize_delta ⟨0, 0, 0, 0, 0, 0⟩ "minutes" 6 = .ok "less than a minute" :=
  humanize_delta_empty_fallback ⟨0, 0, 0, 0, 0, 0⟩ "minutes" 4 (by decide) rfl

/-- C5: when the loop collects at least two phrases, exactly one merge
happens — the final two phrases become `"A and B"` — and the resulting list
is comma-joined; the one-day-two-hours delta renders as
`"1 day and 2 hours"`. -/
theorem humanize_delta_and_merge (delta : Relativedelta) (p : String)
    (m : Int) (l : List String) (a b : String) (h1 : 1 ≤ m)
    (h2 : collectPhrases (unitsList delta) p m 0 = l ++ [a, b]) :
    humanize_delta delta p m = .ok (joinComma (l ++ [a ++ " and " ++ b])) ∧
    humanize_delta ⟨0, 0, 1, 2, 0, 0⟩ "seconds" 6 = .ok "1 day and 2 hours" := by
  refine ⟨?_, rfl⟩
  rw [humanize_delta_eq_of_pos delta p m h1, h2, mergeLastTwo_append_pair]
  rw [if_neg (by simp)]

/-- C5 witness: the merge instantiated at the one-day-two-hours delta. -/
theorem humanize_delta_and_merge_witness :
    humanize_delta ⟨0, 0, 1, 2, 0, 0⟩ "seconds" 6 =
      .ok (joinComma ([] ++ ["1 day" ++ " and " ++ "2 hours"])) ∧
    humanize_delta ⟨0, 0, 1, 2, 0, 0⟩ "seconds" 6 = .ok "1 day and 2 hours" :=
  humanize_delta_and_merge ⟨0, 0, 1, 2, 0, 0⟩ "seconds" 6 [] "1 day" "2 hours"
    (by decide) (by decide)

/-- C6: the phrase list of `humanize_delta` never exceeds `max_units`
entries; with `max_units = 1` no "and"-merge ever happens, and the output is
either the zero-precision fallback or the single collected phrase. -/
theorem humanize_delta_max_units_cap (delta : Relativedelta) (p : String)
    (m : Int) (h : 1 ≤ m) :
    ((collectPhrases (unitsList delta) p m 0).length : Int) ≤ m ∧
    mergeLastTwo (collectPhrases (unitsList delta) p 1 0) =
      collectPhrases (unitsList delta) p 1 0 ∧
    (∀ s, humanize_delta delta p 1 = .ok s →
      s = _stringify_time_unit 0 p ∨
        collectPhrases (unitsList delta) p 1 0 = [s]) := by
  have hb := collectPhrases_length_le p m (unitsList delta) 0 (by omega)
  have hb1 := collectPhrases_length_le p 1 (unitsList delta) 0 (by omega)
  have hlen1 : (collectPhrases (unitsList delta) p 1 0).length ≤ 1 := by
    omega
  refine ⟨by omega, mergeLastTwo_short _ hlen1, ?_⟩
  intro s hs
  rw [humanize_delta_eq_of_pos delta p 1 (by omega)] at hs
  rw [mergeLastTwo_short _ hlen1] at hs
  by_cases hts : collectPhrases (unitsList delta) p 1 0 = []
  · rw [if_pos hts] at hs
    cases hs
    exact Or.inl rfl
  · rw [if_neg hts] at hs
    obtain ⟨x, hx⟩ : ∃ x, collectPhrases (unitsList delta) p 1 0 = [x] := by
      match hc : collectPhrases (unitsList delta) p 1 0 with
      | [] => exact absurd hc hts
      | [x] => exact ⟨x, rfl⟩
      | x :: y :: r => rw [hc] at hlen1; simp at hlen1
    rw [hx] at hs
    cases hs
    exact Or.inr hx

/-- C6 witness: the cap instantiated at a two-unit delta with bound two,
and the single-phrase shape at bound one. -/
theorem humanize_delta_max_units_cap_witness :
    ((collectPhrases (unitsList ⟨1, 0, 0, 0, 0, 3⟩) "seconds" 2 0).length : Int) ≤ 2 ∧
    (_stringify_time_unit 1 "years" = _stringify_time_unit 0 "seconds" ∨
      collectPhrases (unitsList ⟨1, 0, 0, 0, 0, 3⟩) "seconds" 1 0 =
        [_stringify_time_unit 1 "years"]) := by
  refine ⟨(humanize_delta_max_units_cap ⟨1, 0, 0, 0, 0, 3⟩ "seconds" 2 (by decide)).1, ?_⟩
  exact (humanize_delta_max_units_cap ⟨1, 0, 0, 0, 0, 3⟩ "seconds" 2
    (by decide)).2.2 (_stringify_time_unit 1 "years") rfl

/-- C7: for a truthy expiry string and positive `max_units`,
`until_expiration` returns `None` exactly when the parsed, microsecond-
truncated expiry is strictly before `now`; otherwise it returns the
humanized delta from `now` to the expiry with seconds precision. -/
theorem until_expiration_none_iff_expired
    (isoparse : String → PyDateTime)
    (rdelta : PyDateTime → PyDateTime → Relativedelta) (e : String)
    (now : Option PyDateTime) (utcnow : PyDateTime) (m : Int)
    (he : e ≠ "") (hm : 1 ≤ m) :
    (until_expiration isoparse rdelta (some e) now utcnow m = .ok none ↔
      dtLt (truncMicro (isoparse e)) (now.getD utcnow) = true) ∧
    (dtLt (truncMicro (isoparse e)) (now.getD utcnow) = false →
      until_expiration isoparse rdelta (some e) now utcnow m =
        Except.map some
          (humanize_delta (rdelta (truncMicro (isoparse e)) (now.getD utcnow))
            "seconds" m)) := by
  have hu : until_expiration isoparse rdelta (some e) now utcnow m =
      if dtLt (truncMicro (isoparse e)) (now.getD utcnow) then .ok none
      else Except.map some
        (humanize_delta (rdelta (truncMicro (isoparse e)) (now.getD utcnow))
          "seconds" m) := by
    simp [until_expiration, he]
  constructor
  · constructor
    · intro hres
      by_contra hlt
      rw [Bool.not_eq_true] at hlt
      rw [hu, if_neg (by simp [hlt])] at hres
      obtain ⟨s, hs⟩ := humanize_delta_ok_exists
        (rdelta (truncMicro (isoparse e)) (now.getD utcnow)) "seconds" m hm
      rw [hs] at hres
      simp [Except.map] at hres
    · intro hlt
      rw [hu, if_pos (by simp [hlt])]
  · intro hlt
    rw [hu, if_neg (by simp [hlt])]

/-- C7 witness: with a parser returning a fixed time equal to `now`, the
expiry is not strictly before `now`, so the humanized delta is returned. -/
theorem until_expiration_none_iff_expired_witness :
    ((until_expiration sampleIso sampleRd (some "x") none sampleDT 2 = .ok none) ↔
      dtLt (truncMicro (sampleIso "x"))
        ((none : Option PyDateTime).getD sampleDT) = true) ∧
    until_expiration sampleIso sampleRd (some "x") none sampleDT 2 =
      Except.map some
        (humanize_delta (sampleRd (truncMicro (sampleIso "x"))
          ((none : Option PyDateTime).getD sampleDT)) "seconds" 2) := by
  refine ⟨(until_expiration_none_iff_expired sampleIso sampleRd "x" none sampleDT 2
    (by decide) (by decide)).1, ?_⟩
  exact (until_expiration_none_iff_expired sampleIso sampleRd "x" none sampleDT 2
    (by decide) (by decide)).2 (by decide)

/-- C8: a falsy main input — `None` or the empty string — makes both
`format_infraction_with_duration` and `until_expiration` return `None`
without raising, whatever the other arguments are. -/
theorem falsy_input_returns_none (isoparse : String → PyDateTime)
    (rdelta : PyDateTime → PyDateTime → Relativedelta)
    (strftimeInfraction : PyDateTime → String)
    (date_from : Option PyDateTime) (utcnow : PyDateTime) (m : Int)
    (absolute : Bool) (now : Option PyDateTime) :
    format_infraction_with_duration isoparse rdelta strftimeInfraction
      none date_from utcnow m absolute = .ok none ∧
    format_infraction_with_duration isoparse rdelta strftimeInfraction
      (some "") date_from utcnow m absolute = .ok none ∧
    until_expiration isoparse rdelta none now utcnow m = .ok none ∧
    until_expiration isoparse rdelta (some "") now utcnow m = .ok none := by
  refine ⟨rfl, ?_, rfl, ?_⟩
  · simp [format_infraction_with_duration]
  · simp [until_expiration]

/-- C9: for positive `max_units`, `humanize_delta` always returns a
nonempty string; hence `format_infraction_with_duration` with a truthy
`date_to` always appends the parenthesized duration and its bare-date
branch is unreachable. -/
theorem humanize_delta_never_empty (delta : Relativedelta) (p : String)
    (m : Int) (h : 1 ≤ m) :
    (∃ s, humanize_delta delta p m = .ok s ∧ s ≠ "") ∧
    (∀ (isoparse : String → PyDateTime)
        (rdelta : PyDateTime → PyDateTime → Relativedelta)
        (strftimeInfraction : PyDateTime → String) (dt : String)
        (date_from : Option PyDateTime) (utcnow : PyDateTime)
        (absolute : Bool), dt ≠ "" →
      ∃ dur, dur ≠ "" ∧
        format_infraction_with_duration isoparse rdelta strftimeInfraction
            (some dt) date_from utcnow m absolute =
          .ok (some (strftimeInfraction (isoparse dt) ++
            (" (" ++ dur ++ ")")))) := by
  refine ⟨humanize_delta_ok_ne_empty delta p m h, ?_⟩
  intro isoparse rdelta fmt dt date_from utcnow absolute hdt
  obtain ⟨dur, hok, hne⟩ := humanize_delta_ok_ne_empty
    (if absolute then absDelta (rdelta (truncMicro (isoparse dt)) (date_from.getD utcnow))
     else rdelta (truncMicro (isoparse dt)) (date_from.getD utcnow)) "seconds" m h
  refine ⟨dur, hne, ?_⟩
  simp only [format_infraction_with_duration, format_infraction]
  rw [if_neg (by simpa using hdt), hok]
  simp [hne]

/-- C9 witness: the nonemptiness and the forced parenthesized duration at
the sample collaborators. -/
theorem humanize_delta_never_empty_witness :
    (∃ s, humanize_delta ⟨0, 0, 0, 0, 0, 0⟩ "seconds" 2 = .ok s ∧ s ≠ "") ∧
    (∃ dur, dur ≠ "" ∧
      format_infraction_with_duration sampleIso sampleRd sampleFmt
          (some "t") none sampleDT 2 true =
        .ok (some (sampleFmt (sampleIso "t") ++ (" (" ++ dur ++ ")")))) := by
  refine ⟨(humanize_delta_never_empty ⟨0, 0, 0, 0, 0, 0⟩ "seconds" 2 (by decide)).1, ?_⟩
  exact (humanize_delta_never_empty ⟨0, 0, 0, 0, 0, 0⟩ "seconds" 2
    (by decide)).2 sampleIso sampleRd sampleFmt "t" none sampleDT true (by decide)

/-- C10: a negative field passes the truthiness test and is rendered with
the plural label — `_stringify_time_unit` sends every negative value to the
plural branch, and a delta whose only nonzero field is a negative hours
value humanizes to that plural phrase. -/
theorem negative_value_plural_rendering (v : Int) (hv : v < 0) :
    (∀ u : String, _stringify_time_unit v u = toString v ++ " " ++ u) ∧
    humanize_delta ⟨0, 0, 0, v, 0, 0⟩ "seconds" 6 =
      .ok (toString v ++ " " ++ "hours") := by
  have hv0 : v ≠ 0 := by omega
  have hv1 : v ≠ 1 := by omega
  have hstr : ∀ u : String, _stringify_time_unit v u = toString v ++ " " ++ u := by
    intro u
    unfold _stringify_time_unit
    rw [if_neg (fun hc => hv0 hc.2), if_neg hv1, if_neg hv0]
  refine ⟨hstr, ?_⟩
  have hc : collectPhrases (unitsList ⟨0, 0, 0, v, 0, 0⟩) "seconds" 6 0 =
      [_stringify_time_unit v "hours"] := by
    show collectPhrases [("years", (0 : Int)), ("months", 0), ("days", 0),
      ("hours", v), ("minutes", 0), ("seconds", 0)] "seconds" 6 0 = _
    rw [collectPhrases_zero_go _ "seconds" 6 0 rfl (by decide),
      collectPhrases_zero_go _ "seconds" 6 0 rfl (by decide),
      collectPhrases_zero_go _ "seconds" 6 0 rfl (by decide),
      collectPhrases_pos_go _ "seconds" 6 0 hv0 (by decide),
      collectPhrases_zero_go _ "seconds" 6 1 rfl (by decide),
      collectPhrases_zero_stop _ "seconds" 6 1 rfl (Or.inl rfl)]
  rw [humanize_delta_eq_of_pos _ _ _ (by decide), hc,
    mergeLastTwo_short _ (by simp), if_neg (by simp)]
  rw [show joinComma [_stringify_time_unit v "hours"] =
    _stringify_time_unit v "hours" from rfl]
  rw [hstr "hours"]

/-- C10 witness: the negative rendering at value minus one. -/
theorem negative_value_plural_rendering_witness :
    _stringify_time_unit (-1) "hours" = "-1 hours" ∧
    humanize_delta ⟨0, 0, 0, -1, 0, 0⟩ "seconds" 6 = .ok "-1 hours" := by
  have h := negative_value_plural_rendering (-1) (by decide)
  refine ⟨?_, ?_⟩
  · rw [h.1 "hours"]
    decide
  · rw [h.2]
    rfl

example : _stringify_time_unit 1 "hours" = "1 hour" := by decide
example : _stringify_time_unit 0 "minutes" = "less than a minute" := by decide
example : _stringify_time_unit 0 "seconds" = "0 seconds" := by decide
example : _stringify_time_unit 24 "hours" = "24 hours" := by decide
example : _stringify_time_unit (-1) "hours" = "-1 hours" := by decide
example : humanize_delta ⟨0, 0, 1, 2, 0, 0⟩ "seconds" 6 = .ok "1 day and 2 hours" := rfl
example : humanize_delta ⟨0, 0, 0, 0, 0, 0⟩ "seconds" 6 = .ok "0 seconds" := rfl
example : humanize_delta ⟨0, 0, 0, 0, 0, 0⟩ "minutes" 6 = .ok "less than a minute" := rfl
example : humanize_delta ⟨1, 2, 3, 0, 5, 6⟩ "seconds" 6 =
    .ok "1 year, 2 months, 3 days, 5 minutes and 6 seconds" := rfl
example : humanize_delta ⟨0, 0, 0, 0, 5, 10⟩ "hours" 6 = .ok "less than a hour" := rfl

end BotTime
